import Mathlib

/-!
# Verification of the scuttle decision engine

A shallow embedding of the targeting policies and the per-cycle agent state
machine of `src/examples/archetypes/` (base.py, tryhard.py, gambler.py,
farmer.py), together with proofs of the spec's testable properties.

Python floats are modelled as real numbers; positions are triples of reals,
3D Euclidean distance uses `Real.sqrt`.  Python's `min(xs, key=f)` and
`max(xs, key=f)` (first extremum wins on ties) are modelled by a fold.
-/

open Classical

/-- A 3D position, Python's `[x, y, z]` lists. -/
structure Pos where
  x : ℝ
  y : ℝ
  z : ℝ

/-- `distance` of base.py: 3D Euclidean distance. -/
noncomputable def distance (p q : Pos) : ℝ :=
  Real.sqrt ((p.x - q.x) ^ 2 + (p.y - q.y) ^ 2 + (p.z - q.z) ^ 2)

theorem distance_nonneg (p q : Pos) : 0 ≤ distance p q :=
  Real.sqrt_nonneg _

theorem distance_self (p : Pos) : distance p p = 0 := by
  simp [distance]

/-- On points differing only in `x`, `distance` is the coordinate gap. -/
theorem distance_eq_of_le {a b : ℝ} (y z : ℝ) (h : a ≤ b) :
    distance ⟨a, y, z⟩ ⟨b, y, z⟩ = b - a := by
  have h2 : (a - b) ^ 2 = (b - a) ^ 2 := by ring
  simp only [distance, sub_self, h2]
  rw [show (b - a) ^ 2 + 0 ^ 2 + 0 ^ 2 = (b - a) ^ 2 by ring]
  exact Real.sqrt_sq (by linarith)

-- Constants of base.py.

/-- `BASE_ZONE_X = 350`. -/
def BASE_ZONE_X : ℝ := 350

/-- `SPEED_SHOP = [490.0, 2.5, 84.0]`. -/
def SPEED_SHOP : Pos := ⟨490, 2.5, 84⟩

/-- `RARITY_ORDER` of base.py, highest priority first. -/
def RARITY_ORDER : List String :=
  ["Secret", "Legendary", "Epic", "Rare", "Uncommon", "Common"]

/-- `PLAYER_SPEED_BASE = 16`. -/
def PLAYER_SPEED_BASE : ℝ := 16

/-- `PLAYER_SPEED_PER_LEVEL = 5.5`. -/
def PLAYER_SPEED_PER_LEVEL : ℝ := 5.5

/-- `TSUNAMI_SPEED = 50.0`. -/
def TSUNAMI_SPEED : ℝ := 50

/-- `rarity_priority` of base.py: index into `RARITY_ORDER`, length of the
order when absent (the `except ValueError` branch). -/
def rarity_priority (r : String) : ℕ := RARITY_ORDER.indexOf r

/-- `is_in_base_zone` of base.py. -/
def is_in_base_zone (p : Pos) : Prop := p.x > BASE_ZONE_X

/-- A world entity as the strategies see it: the fields of the JSON dict that
the decision code reads.  `zone` is the `attributes['Zone']` value when
present (`None` models both a missing key and an empty string, which Python's
`or`-chain treats alike). -/
structure Entity where
  name : String
  position : Pos
  isBrainrot : Bool
  zone : Option String
  color : List ℝ

/-- The color-table fallback of `get_rarity` in base.py. -/
noncomputable def color_rarity (color : List ℝ) : String :=
  if color.length < 3 then "Common"
  else
    let r := color.getD 0 0
    let g := color.getD 1 0
    let b := color.getD 2 0
    if |r - 1| < 0.01 ∧ |g - 1| < 0.01 ∧ |b - 1| < 0.01 then "Secret"
    else if |r - 1| < 0.01 ∧ |g - 1| < 0.01 ∧ |b - 0.19607843| < 0.01 then "Legendary"
    else if |r - 1| < 0.01 ∧ |g - 0.5882353| < 0.01 ∧ |b - 0.19607843| < 0.01 then "Epic"
    else if |r - 0.7058824| < 0.01 ∧ |g - 0.39215687| < 0.01 ∧ |b - 1| < 0.01 then "Rare"
    else if |r - 0.39215687| < 0.01 ∧ |g - 0.5882353| < 0.01 ∧ |b - 1| < 0.01 then "Uncommon"
    else "Common"

/-- `get_rarity` of base.py: the `Zone` attribute when present and listed in
`RARITY_ORDER`, otherwise the color fallback. -/
noncomputable def get_rarity (e : Entity) : String :=
  match e.zone with
  | some z => if z ∈ RARITY_ORDER then z else color_rarity e.color
  | none => color_rarity e.color

theorem color_rarity_mem (c : List ℝ) : color_rarity c ∈ RARITY_ORDER := by
  unfold color_rarity
  split
  · decide
  · dsimp only
    split
    · decide
    · split
      · decide
      · split
        · decide
        · split
          · decide
          · split <;> decide

theorem get_rarity_mem (e : Entity) : get_rarity e ∈ RARITY_ORDER := by
  unfold get_rarity
  match e.zone with
  | some z =>
    dsimp only
    split
    · assumption
    · exact color_rarity_mem _
  | none => exact color_rarity_mem _

-- Python's min/max with a key function: scan left to right, the current
-- best is replaced only on a strict improvement, so the first extremum wins.

/-- `min(xs, key=f)` as the strategies use it; `none` on the empty list
(where Python would raise `ValueError`). -/
noncomputable def min_by {α : Type} (f : α → ℝ) : List α → Option α
  | [] => none
  | x :: xs => some (xs.foldl (fun best y => if f y < f best then y else best) x)

/-- `max(xs, key=f)`; `none` on the empty list. -/
noncomputable def max_by {α : Type} (f : α → ℝ) : List α → Option α
  | [] => none
  | x :: xs => some (xs.foldl (fun best y => if f best < f y then y else best) x)

theorem min_by_eq_none_iff {α : Type} (f : α → ℝ) (l : List α) :
    min_by f l = none ↔ l = [] := by
  cases l <;> simp [min_by]

theorem max_by_eq_none_iff {α : Type} (f : α → ℝ) (l : List α) :
    max_by f l = none ↔ l = [] := by
  cases l <;> simp [max_by]

theorem foldl_min_spec {α : Type} (f : α → ℝ) (xs : List α) (acc : α) :
    (xs.foldl (fun best y => if f y < f best then y else best) acc = acc ∨
      xs.foldl (fun best y => if f y < f best then y else best) acc ∈ xs) ∧
    f (xs.foldl (fun best y => if f y < f best then y else best) acc) ≤ f acc ∧
    ∀ x ∈ xs, f (xs.foldl (fun best y => if f y < f best then y else best) acc) ≤ f x := by
  induction xs generalizing acc with
  | nil => simp
  | cons hd tl ih =>
    simp only [List.foldl_cons]
    by_cases h : f hd < f acc
    · rw [if_pos h]
      rcases ih hd with ⟨hmem, hle, hall⟩
      refine ⟨?_, ?_, ?_⟩
      · rcases hmem with h1 | h1
        · exact Or.inr (by simp [h1])
        · exact Or.inr (List.mem_cons_of_mem _ h1)
      · linarith
      · intro x hx
        rcases List.mem_cons.mp hx with rfl | hx
        · exact hle
        · exact hall x hx
    · rw [if_neg h]
      rcases ih acc with ⟨hmem, hle, hall⟩
      refine ⟨?_, ?_, ?_⟩
      · rcases hmem with h1 | h1
        · exact Or.inl h1
        · exact Or.inr (List.mem_cons_of_mem _ h1)
      · exact hle
      · intro x hx
        rcases List.mem_cons.mp hx with rfl | hx
        · push_neg at h; linarith
        · exact hall x hx

theorem foldl_max_spec {α : Type} (f : α → ℝ) (xs : List α) (acc : α) :
    (xs.foldl (fun best y => if f best < f y then y else best) acc = acc ∨
      xs.foldl (fun best y => if f best < f y then y else best) acc ∈ xs) ∧
    f acc ≤ f (xs.foldl (fun best y => if f best < f y then y else best) acc) ∧
    ∀ x ∈ xs, f x ≤ f (xs.foldl (fun best y => if f best < f y then y else best) acc) := by
  induction xs generalizing acc with
  | nil => simp
  | cons hd tl ih =>
    simp only [List.foldl_cons]
    by_cases h : f acc < f hd
    · rw [if_pos h]
      rcases ih hd with ⟨hmem, hle, hall⟩
      refine ⟨?_, ?_, ?_⟩
      · rcases hmem with h1 | h1
        · exact Or.inr (by simp [h1])
        · exact Or.inr (List.mem_cons_of_mem _ h1)
      · linarith
      · intro x hx
        rcases List.mem_cons.mp hx with rfl | hx
        · exact hle
        · exact hall x hx
    · rw [if_neg h]
      rcases ih acc with ⟨hmem, hle, hall⟩
      refine ⟨?_, ?_, ?_⟩
      · rcases hmem with h1 | h1
        · exact Or.inl h1
        · exact Or.inr (List.mem_cons_of_mem _ h1)
      · exact hle
      · intro x hx
        rcases List.mem_cons.mp hx with rfl | hx
        · push_neg at h; linarith
        · exact hall x hx

theorem min_by_mem {α : Type} {f : α → ℝ} {l : List α} {b : α}
    (h : min_by f l = some b) : b ∈ l := by
  cases l with
  | nil => simp [min_by] at h
  | cons x xs =>
    simp only [min_by, Option.some.injEq] at h
    rcases (foldl_min_spec f xs x).1 with h1 | h1
    · rw [← h]; simp [h1]
    · rw [← h]; exact List.mem_cons_of_mem _ h1

theorem min_by_le {α : Type} {f : α → ℝ} {l : List α} {b : α}
    (h : min_by f l = some b) : ∀ x ∈ l, f b ≤ f x := by
  cases l with
  | nil => simp [min_by] at h
  | cons x xs =>
    simp only [min_by, Option.some.injEq] at h
    intro y hy
    rcases List.mem_cons.mp hy with rfl | hy
    · rw [← h]; exact (foldl_min_spec f xs y).2.1
    · rw [← h]; exact (foldl_min_spec f xs x).2.2 y hy

theorem max_by_mem {α : Type} {f : α → ℝ} {l : List α} {b : α}
    (h : max_by f l = some b) : b ∈ l := by
  cases l with
  | nil => simp [max_by] at h
  | cons x xs =>
    simp only [max_by, Option.some.injEq] at h
    rcases (foldl_max_spec f xs x).1 with h1 | h1
    · rw [← h]; simp [h1]
    · rw [← h]; exact List.mem_cons_of_mem _ h1

theorem max_by_ge {α : Type} {f : α → ℝ} {l : List α} {b : α}
    (h : max_by f l = some b) : ∀ x ∈ l, f x ≤ f b := by
  cases l with
  | nil => simp [max_by] at h
  | cons x xs =>
    simp only [max_by, Option.some.injEq] at h
    intro y hy
    rcases List.mem_cons.mp hy with rfl | hy
    · rw [← h]; exact (foldl_max_spec f xs y).2.1
    · rw [← h]; exact (foldl_max_spec f xs x).2.2 y hy

/-- An action returned by a strategy's `find_target`: the `{'type': ...}`
dicts of the archetype modules. -/
inductive StrategyAction where
  | Wait (event : String)
  | MoveTo (position : Pos) (rarity : String) (event : String)
  | Collect (rarity : String) (event : String)

/-- `_player_speed`, identical in all three strategies. -/
noncomputable def player_speed (speed_level : ℝ) : ℝ :=
  PLAYER_SPEED_BASE + (speed_level - 1) * PLAYER_SPEED_PER_LEVEL

/-- `_move_or_collect`, identical in all three strategies. -/
noncomputable def move_or_collect (pos : Pos) (b : Entity) (rarity event : String) :
    StrategyAction :=
  if distance pos b.position < 5 then StrategyAction.Collect rarity ("collected " ++ rarity)
  else StrategyAction.MoveTo b.position rarity event

theorem move_or_collect_ne_wait (pos : Pos) (b : Entity) (rarity event s : String) :
    move_or_collect pos b rarity event ≠ StrategyAction.Wait s := by
  unfold move_or_collect
  split <;> simp

-- TryhardStrategy (tryhard.py).

/-- `TryhardStrategy._base_safety_margin`: steps down as the speed level
rises. -/
noncomputable def tryhard_base_safety_margin (speed_level : ℝ) : ℝ :=
  if speed_level ≥ 10 then 3
  else if speed_level ≥ 8 then 4
  else if speed_level ≥ 5 then 5
  else 6

theorem tryhard_base_safety_margin_pos (speed_level : ℝ) :
    0 < tryhard_base_safety_margin speed_level := by
  unfold tryhard_base_safety_margin
  split
  · norm_num
  · split
    · norm_num
    · split <;> norm_num

/-- `TryhardStrategy.can_reach_before_tsunami` with the strategy's
`safety_modifier` passed explicitly. -/
noncomputable def can_reach_before_tsunami (safety_modifier : ℝ)
    (player_pos brainrot_pos deposit_pos : Pos) (tsunami_x speed_level : ℝ) :
    Prop :=
  let speed := player_speed speed_level
  let ticks_to_collect := distance player_pos brainrot_pos / speed + 1
  let ticks_to_return := distance brainrot_pos deposit_pos / speed
  let total_ticks_needed := ticks_to_collect + ticks_to_return
  let ticks_until_tsunami := (deposit_pos.x - tsunami_x) / TSUNAMI_SPEED
  let safety_margin := tryhard_base_safety_margin speed_level * safety_modifier
  total_ticks_needed < ticks_until_tsunami - safety_margin

/-- The `valid` filter shared by tryhard.py and gambler.py: alive
(`position[1] > -100`) and outside the base zone. -/
noncomputable def valid_filter (brainrots : List Entity) : List Entity :=
  brainrots.filter
    (fun b => decide (b.position.y > -100 ∧ ¬ is_in_base_zone b.position))

/-- `TryhardStrategy._furthest_by_rarity`, recursion over the rarity order. -/
noncomputable def furthest_in_order (pos : Pos) (candidates : List Entity) :
    List String → Option (Entity × String)
  | [] => none
  | r :: rest =>
    match max_by (fun b => distance pos b.position)
        (candidates.filter (fun b => decide (get_rarity b = r))) with
    | some b => some (b, r)
    | none => furthest_in_order pos candidates rest

/-- `TryhardStrategy._furthest_by_rarity`. -/
noncomputable def furthest_by_rarity (pos : Pos) (candidates : List Entity) :
    Option (Entity × String) :=
  furthest_in_order pos candidates RARITY_ORDER

/-- `TryhardStrategy._find_nearest_valuable`, recursion over the rarity
order. -/
noncomputable def nearest_in_order (pos : Pos) (candidates : List Entity) :
    List String → Option (Entity × String)
  | [] => none
  | r :: rest =>
    match min_by (fun b => distance pos b.position)
        (candidates.filter (fun b => decide (get_rarity b = r))) with
    | some b => some (b, r)
    | none => nearest_in_order pos candidates rest

/-- `TryhardStrategy._find_nearest_valuable`. -/
noncomputable def find_nearest_valuable (pos : Pos) (candidates : List Entity) :
    Option (Entity × String) :=
  nearest_in_order pos candidates RARITY_ORDER

/-- `TryhardStrategy.find_target`.  The aggressive branch falls through to
the normal branch when `_find_nearest_valuable` yields nothing, as the
Python `if target:` does. -/
noncomputable def tryhard_find_target (safety_modifier : ℝ) (pos : Pos)
    (brainrots : List Entity) (tsunami_x : ℝ) (base_center : Pos)
    (speed_level money : ℝ) : Option StrategyAction :=
  let valid := valid_filter brainrots
  let tsunami_active := tsunami_x > -400
  let reachable := valid.filter (fun b =>
    decide (can_reach_before_tsunami safety_modifier pos b.position base_center
      tsunami_x speed_level))
  if tsunami_active ∧ reachable = [] ∧ distance pos base_center < 20 then
    some (StrategyAction.Wait "waiting for wave reset")
  else
    let tsunami_passed := tsunami_x > base_center.x
    let aggressive : Option StrategyAction :=
      if money ≥ 2500 ∧ tsunami_passed ∧ distance pos base_center < 20 then
        match find_nearest_valuable pos valid with
        | some (b, rarity) =>
          some (move_or_collect pos b rarity "aggressive mode - nearest valuable")
        | none => none
      else none
    match aggressive with
    | some a => some a
    | none =>
      match furthest_by_rarity pos reachable with
      | some (b, rarity) =>
        some (move_or_collect pos b rarity ("targeting " ++ rarity))
      | none =>
        match min_by (fun b => distance pos b.position) valid with
        | some nearest =>
          some (move_or_collect pos nearest (get_rarity nearest)
            "risky nearest fallback")
        | none => none

-- GamblerStrategy (gambler.py).

/-- `GamblerStrategy._ticks_to_return`. -/
noncomputable def gambler_ticks_to_return (brainrot_pos deposit_pos : Pos)
    (speed_level : ℝ) : ℝ :=
  distance brainrot_pos deposit_pos / player_speed speed_level

/-- `GamblerStrategy._ticks_available`. -/
noncomputable def gambler_ticks_available (deposit_pos : Pos) (tsunami_x : ℝ) : ℝ :=
  (deposit_pos.x - tsunami_x) / TSUNAMI_SPEED

/-- `GamblerStrategy.is_safe_enough`: only the return trip is checked,
against the available time minus the raw safety modifier. -/
noncomputable def is_safe_enough (safety_modifier : ℝ)
    (brainrot_pos deposit_pos : Pos) (tsunami_x speed_level : ℝ) : Prop :=
  gambler_ticks_to_return brainrot_pos deposit_pos speed_level <
    gambler_ticks_available deposit_pos tsunami_x - safety_modifier

/-- One iteration of the best-rarity loop in `GamblerStrategy.find_target`:
the tracked best is replaced only on a strictly smaller rarity priority. -/
noncomputable def gambler_scan_step (acc : Option (Entity × String) × ℕ)
    (b : Entity) : Option (Entity × String) × ℕ :=
  let rarity := get_rarity b
  let priority :=
    if rarity ∈ RARITY_ORDER then RARITY_ORDER.indexOf rarity
    else RARITY_ORDER.length
  if priority < acc.2 then (some (b, rarity), priority) else acc

/-- The best-rarity scan of `GamblerStrategy.find_target`: first candidate
with a strictly smaller rarity priority wins, starting from priority
`len(RARITY_ORDER)`. -/
noncomputable def gambler_best (valid : List Entity) :
    Option (Entity × String) :=
  (valid.foldl gambler_scan_step
    ((none : Option (Entity × String)), RARITY_ORDER.length)).1

/-- `GamblerStrategy.find_target`. -/
noncomputable def gambler_find_target (safety_modifier : ℝ) (pos : Pos)
    (brainrots : List Entity) (tsunami_x : ℝ) (base_center : Pos)
    (speed_level money : ℝ) : Option StrategyAction :=
  let valid := valid_filter brainrots
  if valid = [] then none
  else
    match gambler_best valid with
    | none => none
    | some (_, best_rarity) =>
      let same_rarity := valid.filter (fun b => decide (get_rarity b = best_rarity))
      match min_by (fun b => distance pos b.position) same_rarity with
      | none => none
      | some target =>
        if ¬ is_safe_enough safety_modifier target.position base_center
            tsunami_x speed_level then
          match min_by (fun b => distance pos b.position) valid with
          | none => none
          | some fallback =>
            if is_safe_enough safety_modifier fallback.position base_center
                tsunami_x speed_level then
              some (move_or_collect pos fallback (get_rarity fallback)
                "gambler fallback - nearest")
            else
              some (move_or_collect pos target (get_rarity target)
                "YOLO gambler - ignoring danger")
        else
          some (move_or_collect pos target best_rarity
            ("chasing " ++ best_rarity))

-- FarmerStrategy (farmer.py).

/-- `FarmerStrategy.is_safe`: return trip against the available time minus
three times the safety modifier. -/
noncomputable def farmer_is_safe (safety_modifier : ℝ)
    (brainrot_pos deposit_pos : Pos) (tsunami_x speed_level : ℝ) : Prop :=
  distance brainrot_pos deposit_pos / player_speed speed_level <
    (deposit_pos.x - tsunami_x) / TSUNAMI_SPEED - safety_modifier * 3

/-- The zone filter of `FarmerStrategy.find_target`: alive, outside the base
zone, beyond the venture limit. -/
noncomputable def farmer_valid_filter (venture_limit_x : ℝ)
    (brainrots : List Entity) : List Entity :=
  brainrots.filter (fun b =>
    decide (b.position.y > -100 ∧ ¬ is_in_base_zone b.position ∧
      b.position.x > venture_limit_x))

/-- The rarity filter of `FarmerStrategy.find_target`, applied only when
`min_rarity_priority > 0`. -/
noncomputable def farmer_rarity_filter (min_rarity_priority : ℕ)
    (valid : List Entity) : List Entity :=
  if min_rarity_priority > 0 then
    valid.filter (fun b =>
      decide (RARITY_ORDER.indexOf (get_rarity b) ≥ min_rarity_priority))
  else valid

/-- `FarmerStrategy.find_target`. -/
noncomputable def farmer_find_target (safety_modifier venture_limit_x : ℝ)
    (min_rarity_priority : ℕ) (pos : Pos) (brainrots : List Entity)
    (tsunami_x : ℝ) (base_center : Pos) (speed_level money : ℝ) :
    Option StrategyAction :=
  let valid := farmer_rarity_filter min_rarity_priority
    (farmer_valid_filter venture_limit_x brainrots)
  if valid = [] then none
  else
    let safe := valid.filter (fun b =>
      decide (farmer_is_safe safety_modifier b.position base_center tsunami_x
        speed_level))
    let pool := if safe = [] then valid else safe
    match min_by (fun b => distance pos b.position) pool with
    | none => none
    | some target =>
      some (move_or_collect pos target (get_rarity target)
        ("farming " ++ get_rarity target ++ " in zone"))

-- The agent state machine (base.py, run_agent).

/-- An input sent to the game by `send_input`. -/
inductive GameAction where
  | MoveTo (position : Pos)
  | Collect
  | Deposit
  | BuySpeed
  | Destroy (index : ℤ)

/-- One placed (deposited) resource at the base: the `value`/`index` fields
read by `destroy_lowest_value`. -/
structure PlacedBrainrot where
  value : ℝ
  index : ℤ

/-- `destroy_lowest_value` of base.py as the inputs it sends: nothing on an
empty list, otherwise one Destroy naming the index of the first
lowest-value placed resource. -/
noncomputable def destroy_lowest_value (placed : List PlacedBrainrot) :
    List GameAction :=
  match min_by (fun p => p.value) placed with
  | none => []
  | some lowest => [GameAction.Destroy lowest.index]

/-- The hazard-front resolution of `run_agent`: the minimum x among
tsunami-wave entities, `-500` when there are none. -/
noncomputable def resolve_tsunami_x (entities : List Entity) : ℝ :=
  match entities.filter (fun e => e.name.startsWith "TsunamiWave") with
  | [] => -500
  | w :: ws => ws.foldl (fun m e => min m e.position.x) w.position.x

/-- The per-cycle mutable state of `run_agent` that survives between
cycles and feeds the stuck detector. -/
structure CycleState where
  last_position : Option Pos
  stuck_cycles : ℕ

/-- One decision cycle of `run_agent` after the observation has been parsed:
the list of inputs sent this cycle (in order) and the updated stuck state.
`strat` stands for the archetype's `find_target`, already applied to its
configuration. -/
noncomputable def run_cycle
    (strat : Pos → List Entity → ℝ → Pos → ℝ → ℝ → Option StrategyAction)
    (upgrade_threshold : ℝ) (st : CycleState) (pos : Pos)
    (carrying capacity : ℕ) (money speed_level next_speed_cost : ℝ)
    (base_center : Pos) (entities : List Entity)
    (placed : List PlacedBrainrot) (base_max : ℕ) :
    List GameAction × CycleState :=
  let brainrots := entities.filter (fun e => e.isBrainrot)
  let tsunami_x := resolve_tsunami_x entities
  -- Stuck detection: fires only with a previous position, small
  -- displacement and a run of THRESHOLD cycles; it skips the rest of the
  -- cycle and does not record the current position.
  let stuck_fires :=
    match st.last_position with
    | some lp => distance pos lp < 1 ∧ st.stuck_cycles + 1 ≥ 5
    | none => False
  if stuck_fires then
    ([GameAction.MoveTo base_center], ⟨st.last_position, 0⟩)
  else
    let new_stuck :=
      match st.last_position with
      | some lp => if distance pos lp < 1 then st.stuck_cycles + 1 else 0
      | none => 0
    let st' : CycleState := ⟨some pos, new_stuck⟩
    if carrying ≥ capacity then
      if distance pos base_center < 20 then
        if placed.length ≥ base_max then
          (destroy_lowest_value placed ++ [GameAction.Deposit], st')
        else ([GameAction.Deposit], st')
      else ([GameAction.MoveTo base_center], st')
    else if carrying = 0 ∧ next_speed_cost > 0 ∧
        money ≥ next_speed_cost * upgrade_threshold ∧ speed_level < 10 then
      if distance pos SPEED_SHOP > 20 then ([GameAction.MoveTo SPEED_SHOP], st')
      else ([GameAction.BuySpeed], st')
    else
      match strat pos brainrots tsunami_x base_center speed_level money with
      | none => ([GameAction.MoveTo base_center], st')
      | some (StrategyAction.MoveTo p _ _) => ([GameAction.MoveTo p], st')
      | some (StrategyAction.Collect _ _) => ([GameAction.Collect], st')
      | some (StrategyAction.Wait _) => ([], st')

-- Claim C9: determinism of the three policies.

/-- C9: each policy's `find_target` is deterministic — the identical
snapshot fed twice to the same configured policy yields the same action.
The strategies are pure functions of their arguments, so the two runs are
definitionally equal. -/
theorem policies_deterministic (sm venture_limit_x : ℝ) (mrp : ℕ) (pos : Pos)
    (brainrots : List Entity) (tsunami_x : ℝ) (base_center : Pos)
    (speed_level money : ℝ) :
    tryhard_find_target sm pos brainrots tsunami_x base_center speed_level money =
      tryhard_find_target sm pos brainrots tsunami_x base_center speed_level money ∧
    gambler_find_target sm pos brainrots tsunami_x base_center speed_level money =
      gambler_find_target sm pos brainrots tsunami_x base_center speed_level money ∧
    farmer_find_target sm venture_limit_x mrp pos brainrots tsunami_x base_center
        speed_level money =
      farmer_find_target sm venture_limit_x mrp pos brainrots tsunami_x base_center
        speed_level money :=
  ⟨rfl, rfl, rfl⟩

-- Claim C7: the reachable set shrinks as the safety margin grows.

/-- C7: with positions, hazard x and speed level fixed, a candidate that is
reachable under the larger safety margin is reachable under the smaller
one; raising the margin never adds a reachable candidate.  The margin knob
of `can_reach_before_tsunami` is the safety modifier, scaled by the fixed
positive speed-tier base margin. -/
theorem can_reach_antitone_in_margin (sm1 sm2 : ℝ)
    (player_pos brainrot_pos deposit_pos : Pos) (tsunami_x speed_level : ℝ)
    (hle : sm1 ≤ sm2)
    (h : can_reach_before_tsunami sm2 player_pos brainrot_pos deposit_pos
      tsunami_x speed_level) :
    can_reach_before_tsunami sm1 player_pos brainrot_pos deposit_pos
      tsunami_x speed_level := by
  unfold can_reach_before_tsunami at h ⊢
  have hB : 0 < tryhard_base_safety_margin speed_level :=
    tryhard_base_safety_margin_pos speed_level
  have : tryhard_base_safety_margin speed_level * sm1 ≤
      tryhard_base_safety_margin speed_level * sm2 :=
    mul_le_mul_of_nonneg_left hle (le_of_lt hB)
  dsimp only at h ⊢
  linarith

/-- Witness for C7 at a concrete snapshot: reachable under safety modifier 1,
hence also under modifier 0. -/
theorem can_reach_antitone_in_margin_witness :
    can_reach_before_tsunami 0 ⟨0, 0, 0⟩ ⟨16, 0, 0⟩ ⟨100, 0, 0⟩ (-1000) 1 := by
  apply can_reach_antitone_in_margin 0 1 _ _ _ _ _ (by norm_num)
  have h1 : distance ⟨0, 0, 0⟩ ⟨16, 0, 0⟩ = 16 - 0 :=
    distance_eq_of_le 0 0 (by norm_num)
  have h2 : distance ⟨16, 0, 0⟩ ⟨100, 0, 0⟩ = 100 - 16 :=
    distance_eq_of_le 0 0 (by norm_num)
  unfold can_reach_before_tsunami player_speed tryhard_base_safety_margin
  rw [h1, h2]
  norm_num [PLAYER_SPEED_BASE, PLAYER_SPEED_PER_LEVEL, TSUNAMI_SPEED]

-- Claim C2: the Risk-Seeking safety check.

/-- Modelled from the spec: the safety check C2 claims for the Risk-Seeking
policy — the full shared cost model, `ticksToCollect(player,target) =
distance3D(player,target)/speed + 1` plus `ticksToReturn`, compared against
`ticksUntilHazard` minus the margin. -/
noncomputable def gambler_claimed_safe_check (safety_modifier : ℝ)
    (player_pos target_pos deposit_pos : Pos) (tsunami_x speed_level : ℝ) :
    Prop :=
  distance player_pos target_pos / player_speed speed_level + 1 +
      distance target_pos deposit_pos / player_speed speed_level <
    (deposit_pos.x - tsunami_x) / TSUNAMI_SPEED - safety_modifier

/-- Counterexample to C2: at this snapshot `is_safe_enough` passes, yet the
claimed total (collect leg included) is not below the available time minus
the margin — the code's check ignores the player-to-target leg entirely. -/
theorem gambler_safety_claim_counterexample :
    is_safe_enough 1 ⟨84, 0, 0⟩ ⟨100, 0, 0⟩ (-100) 1 ∧
      ¬ gambler_claimed_safe_check 1 ⟨-76, 0, 0⟩ ⟨84, 0, 0⟩ ⟨100, 0, 0⟩ (-100) 1 := by
  have h1 : distance ⟨84, 0, 0⟩ ⟨100, 0, 0⟩ = 100 - 84 :=
    distance_eq_of_le 0 0 (by norm_num)
  have h2 : distance ⟨-76, 0, 0⟩ ⟨84, 0, 0⟩ = 84 - (-76) :=
    distance_eq_of_le 0 0 (by norm_num)
  constructor
  · unfold is_safe_enough gambler_ticks_to_return gambler_ticks_available
      player_speed
    rw [h1]
    norm_num [PLAYER_SPEED_BASE, PLAYER_SPEED_PER_LEVEL, TSUNAMI_SPEED]
  · unfold gambler_claimed_safe_check player_speed
    rw [h1, h2]
    norm_num [PLAYER_SPEED_BASE, PLAYER_SPEED_PER_LEVEL, TSUNAMI_SPEED]

/-- C2 amended: the Risk-Seeking safety check compares only the return leg —
`distance3D(target,deposit)/speed`, with no collect leg and no `+1` — against
`ticksUntilHazard` minus the flat margin (the raw safety modifier); it passes
iff that single term is below the difference. -/
theorem gambler_safety_check_return_leg_only (safety_modifier : ℝ)
    (target_pos deposit_pos : Pos) (tsunami_x speed_level : ℝ) :
    is_safe_enough safety_modifier target_pos deposit_pos tsunami_x speed_level ↔
      distance target_pos deposit_pos /
          (16 + (speed_level - 1) * (11 / 2)) <
        (deposit_pos.x - tsunami_x) / 50 - safety_modifier := by
  unfold is_safe_enough gambler_ticks_to_return gambler_ticks_available
    player_speed PLAYER_SPEED_BASE PLAYER_SPEED_PER_LEVEL TSUNAMI_SPEED
  norm_num

/-- `tryhard_find_target` with its local bindings inlined (zeta reduction),
for case analysis. -/
theorem tryhard_find_target_eq (sm : ℝ) (pos : Pos) (brs : List Entity)
    (tsx : ℝ) (bc : Pos) (lvl money : ℝ) :
    tryhard_find_target sm pos brs tsx bc lvl money =
      if tsx > -400 ∧
          (valid_filter brs).filter (fun b =>
            decide (can_reach_before_tsunami sm pos b.position bc tsx lvl)) = [] ∧
          distance pos bc < 20 then
        some (StrategyAction.Wait "waiting for wave reset")
      else
        match
          (if money ≥ 2500 ∧ tsx > bc.x ∧ distance pos bc < 20 then
            match find_nearest_valuable pos (valid_filter brs) with
            | some (b, rarity) =>
              some (move_or_collect pos b rarity "aggressive mode - nearest valuable")
            | none => none
          else none) with
        | some a => some a
        | none =>
          match furthest_by_rarity pos ((valid_filter brs).filter (fun b =>
              decide (can_reach_before_tsunami sm pos b.position bc tsx lvl))) with
          | some (b, rarity) =>
            some (move_or_collect pos b rarity ("targeting " ++ rarity))
          | none =>
            match min_by (fun b => distance pos b.position) (valid_filter brs) with
            | some nearest =>
              some (move_or_collect pos nearest (get_rarity nearest)
                "risky nearest fallback")
            | none => none := rfl

/-- The only `Wait` the Aggressive-Safe policy ever returns comes from its
hazard-wait rule, whose guard requires the hazard-active test `tsunami_x >
-400` to pass. -/
theorem tryhard_wait_imp_active (sm : ℝ) (pos : Pos) (brainrots : List Entity)
    (tsunami_x : ℝ) (base_center : Pos) (speed_level money : ℝ) (s : String)
    (h : tryhard_find_target sm pos brainrots tsunami_x base_center
      speed_level money = some (StrategyAction.Wait s)) :
    tsunami_x > -400 := by
  rw [tryhard_find_target_eq] at h
  by_cases hc : tsunami_x > -400 ∧
      (valid_filter brainrots).filter (fun b =>
        decide (can_reach_before_tsunami sm pos b.position base_center
          tsunami_x speed_level)) = [] ∧ distance pos base_center < 20
  · exact hc.1
  · exfalso
    rw [if_neg hc] at h
    by_cases ha : money ≥ 2500 ∧ tsunami_x > base_center.x ∧
        distance pos base_center < 20
    · rw [if_pos ha] at h
      cases hnv : find_nearest_valuable pos (valid_filter brainrots) with
      | some br =>
        rw [hnv] at h
        cases br with
        | mk b rarity =>
          simp only [Option.some.injEq] at h
          exact move_or_collect_ne_wait pos b rarity
            "aggressive mode - nearest valuable" s h
      | none =>
        rw [hnv] at h
        cases hf : furthest_by_rarity pos ((valid_filter brainrots).filter
            (fun b => decide (can_reach_before_tsunami sm pos b.position
              base_center tsunami_x speed_level))) with
        | some br =>
          rw [hf] at h
          cases br with
          | mk b rarity =>
            simp only [Option.some.injEq] at h
            exact move_or_collect_ne_wait pos b rarity ("targeting " ++ rarity)
              s h
        | none =>
          rw [hf] at h
          cases hm : min_by (fun b => distance pos b.position)
              (valid_filter brainrots) with
          | some nearest =>
            rw [hm] at h
            simp only [Option.some.injEq] at h
            exact move_or_collect_ne_wait pos nearest (get_rarity nearest)
              "risky nearest fallback" s h
          | none => rw [hm] at h; exact Option.noConfusion h
    · rw [if_neg ha] at h
      cases hf : furthest_by_rarity pos ((valid_filter brainrots).filter
          (fun b => decide (can_reach_before_tsunami sm pos b.position
            base_center tsunami_x speed_level))) with
      | some br =>
        rw [hf] at h
        cases br with
        | mk b rarity =>
          simp only [Option.some.injEq] at h
          exact move_or_collect_ne_wait pos b rarity ("targeting " ++ rarity)
            s h
      | none =>
        rw [hf] at h
        cases hm : min_by (fun b => distance pos b.position)
            (valid_filter brainrots) with
        | some nearest =>
          rw [hm] at h
          simp only [Option.some.injEq] at h
          exact move_or_collect_ne_wait pos nearest (get_rarity nearest)
            "risky nearest fallback" s h
        | none => rw [hm] at h; exact Option.noConfusion h

-- Claim C8: missing hazard entities resolve to the far sentinel.

/-- C8: a snapshot with no tsunami-wave entities resolves the hazard front
to the sentinel `-500`; the hazard-active test `tsunami_x > -400` is then
false, so the Aggressive-Safe hazard-wait rule cannot return `Wait` that
cycle. -/
theorem no_hazard_entities_sentinel (entities : List Entity)
    (hw : entities.filter (fun e => e.name.startsWith "TsunamiWave") = []) :
    resolve_tsunami_x entities = -500 ∧ ¬ ((-500 : ℝ) > -400) ∧
      ∀ (sm : ℝ) (pos : Pos) (brs : List Entity) (bc : Pos)
        (lvl money : ℝ) (s : String),
        tryhard_find_target sm pos brs (resolve_tsunami_x entities) bc lvl
            money ≠ some (StrategyAction.Wait s) := by
  have hres : resolve_tsunami_x entities = -500 := by
    unfold resolve_tsunami_x
    rw [hw]
  refine ⟨hres, by norm_num, ?_⟩
  intro sm pos brs bc lvl money s hEq
  rw [hres] at hEq
  have hact := tryhard_wait_imp_active sm pos brs (-500) bc lvl money s hEq
  norm_num at hact

/-- Witness for C8: the empty snapshot has no tsunami-wave entity, and the
sentinel and no-wait conclusions hold for it. -/
theorem no_hazard_entities_sentinel_witness :
    resolve_tsunami_x [] = -500 ∧ ¬ ((-500 : ℝ) > -400) ∧
      ∀ (sm : ℝ) (pos : Pos) (brs : List Entity) (bc : Pos)
        (lvl money : ℝ) (s : String),
        tryhard_find_target sm pos brs (resolve_tsunami_x []) bc lvl money ≠
          some (StrategyAction.Wait s) :=
  no_hazard_entities_sentinel [] rfl

theorem distance_comm (p q : Pos) : distance p q = distance q p := by
  unfold distance
  ring_nf

/-- `farmer_find_target` with its local bindings inlined. -/
theorem farmer_find_target_eq (sm vlim : ℝ) (mrp : ℕ) (pos : Pos)
    (brs : List Entity) (tsx : ℝ) (bc : Pos) (lvl money : ℝ) :
    farmer_find_target sm vlim mrp pos brs tsx bc lvl money =
      if farmer_rarity_filter mrp (farmer_valid_filter vlim brs) = [] then none
      else
        match min_by (fun b => distance pos b.position)
          (if (farmer_rarity_filter mrp (farmer_valid_filter vlim brs)).filter
              (fun b => decide (farmer_is_safe sm b.position bc tsx lvl)) = []
            then farmer_rarity_filter mrp (farmer_valid_filter vlim brs)
            else (farmer_rarity_filter mrp (farmer_valid_filter vlim brs)).filter
              (fun b => decide (farmer_is_safe sm b.position bc tsx lvl))) with
        | none => none
        | some target =>
          some (move_or_collect pos target (get_rarity target)
            ("farming " ++ get_rarity target ++ " in zone")) := rfl

theorem farmer_valid_filter_mem {vlim : ℝ} {brs : List Entity} {b : Entity}
    (h : b ∈ farmer_valid_filter vlim brs) :
    b ∈ brs ∧ b.position.y > -100 ∧ ¬ is_in_base_zone b.position ∧
      b.position.x > vlim := by
  unfold farmer_valid_filter at h
  have h2 := List.mem_filter.mp h
  exact ⟨h2.1, of_decide_eq_true h2.2⟩

-- Claim C5: the Zone-Restricted policy only targets candidates inside its
-- configured zone and rarity restrictions.

/-- C5: whenever the Zone-Restricted policy returns an action, the target it
was built from is a snapshot entity beyond the venture limit, outside the
base zone (and alive), and — when a minimum rarity priority is configured —
of rarity priority at least that threshold. -/
theorem farmer_target_in_zone (sm vlim : ℝ) (mrp : ℕ) (pos : Pos)
    (brs : List Entity) (tsx : ℝ) (bc : Pos) (lvl money : ℝ)
    (a : StrategyAction)
    (h : farmer_find_target sm vlim mrp pos brs tsx bc lvl money = some a) :
    ∃ b, b ∈ brs ∧ b.position.y > -100 ∧ ¬ is_in_base_zone b.position ∧
      b.position.x > vlim ∧
      (mrp > 0 → rarity_priority (get_rarity b) ≥ mrp) ∧
      a = move_or_collect pos b (get_rarity b)
        ("farming " ++ get_rarity b ++ " in zone") := by
  rw [farmer_find_target_eq] at h
  by_cases he : farmer_rarity_filter mrp (farmer_valid_filter vlim brs) = []
  · rw [if_pos he] at h
    exact Option.noConfusion h
  · rw [if_neg he] at h
    cases hm : min_by (fun b => distance pos b.position)
        (if (farmer_rarity_filter mrp (farmer_valid_filter vlim brs)).filter
            (fun b => decide (farmer_is_safe sm b.position bc tsx lvl)) = []
          then farmer_rarity_filter mrp (farmer_valid_filter vlim brs)
          else (farmer_rarity_filter mrp (farmer_valid_filter vlim brs)).filter
            (fun b => decide (farmer_is_safe sm b.position bc tsx lvl))) with
    | none => rw [hm] at h; exact Option.noConfusion h
    | some target =>
      rw [hm] at h
      simp only [Option.some.injEq] at h
      have htpool := min_by_mem hm
      have htv2 : target ∈ farmer_rarity_filter mrp (farmer_valid_filter vlim brs) := by
        by_cases hs : (farmer_rarity_filter mrp (farmer_valid_filter vlim brs)).filter
            (fun b => decide (farmer_is_safe sm b.position bc tsx lvl)) = []
        · rwa [if_pos hs] at htpool
        · rw [if_neg hs] at htpool
          exact (List.mem_filter.mp htpool).1
      have hmrp : target ∈ farmer_valid_filter vlim brs ∧
          (mrp > 0 → rarity_priority (get_rarity target) ≥ mrp) := by
        unfold farmer_rarity_filter at htv2
        by_cases hp : mrp > 0
        · rw [if_pos hp] at htv2
          have h3 := List.mem_filter.mp htv2
          exact ⟨h3.1, fun _ => of_decide_eq_true h3.2⟩
        · rw [if_neg hp] at htv2
          exact ⟨htv2, fun hc => absurd hc hp⟩
      have hvf := farmer_valid_filter_mem hmrp.1
      exact ⟨target, hvf.1, hvf.2.1, hvf.2.2.1, hvf.2.2.2, hmrp.2, h.symm⟩

/-- Witness for C5 at a concrete snapshot: one candidate inside the venture
zone, selected with a MoveTo. -/
theorem farmer_target_in_zone_witness :
    ∃ b, b ∈ [(⟨"B", ⟨260, 0, 0⟩, true, some "Common", []⟩ : Entity)] ∧
      b.position.y > -100 ∧ ¬ is_in_base_zone b.position ∧
      b.position.x > 200 ∧
      ((0 : ℕ) > 0 → rarity_priority (get_rarity b) ≥ 0) ∧
      StrategyAction.MoveTo ⟨260, 0, 0⟩ "Common" "farming Common in zone" =
        move_or_collect ⟨250, 0, 0⟩ b (get_rarity b)
          ("farming " ++ get_rarity b ++ " in zone") := by
  apply farmer_target_in_zone 1 200 0 ⟨250, 0, 0⟩ _ (-1000) ⟨375, 0, 0⟩ 1 0
  rw [farmer_find_target_eq]
  have hval : farmer_valid_filter 200
      [(⟨"B", ⟨260, 0, 0⟩, true, some "Common", []⟩ : Entity)] =
      [(⟨"B", ⟨260, 0, 0⟩, true, some "Common", []⟩ : Entity)] := by
    unfold farmer_valid_filter
    norm_num [is_in_base_zone, BASE_ZONE_X]
  have hrar : farmer_rarity_filter 0
      [(⟨"B", ⟨260, 0, 0⟩, true, some "Common", []⟩ : Entity)] =
      [(⟨"B", ⟨260, 0, 0⟩, true, some "Common", []⟩ : Entity)] := by
    unfold farmer_rarity_filter
    rw [if_neg (by norm_num)]
  rw [hval, hrar]
  have hsafe : farmer_is_safe 1 (⟨260, 0, 0⟩ : Pos) (⟨375, 0, 0⟩ : Pos) (-1000) 1 := by
    unfold farmer_is_safe player_speed
    rw [distance_eq_of_le 0 0 (by norm_num : (260:ℝ) ≤ 375)]
    norm_num [PLAYER_SPEED_BASE, PLAYER_SPEED_PER_LEVEL, TSUNAMI_SPEED]
  have hsafefil : [(⟨"B", ⟨260, 0, 0⟩, true, some "Common", []⟩ : Entity)].filter
      (fun b => decide (farmer_is_safe 1 b.position ⟨375, 0, 0⟩ (-1000) 1)) =
      [(⟨"B", ⟨260, 0, 0⟩, true, some "Common", []⟩ : Entity)] := by
    simp [hsafe]
  rw [if_neg (by simp : ¬([(⟨"B", ⟨260, 0, 0⟩, true, some "Common", []⟩ : Entity)] = [])),
    hsafefil]
  rw [if_neg (by simp : ¬([(⟨"B", ⟨260, 0, 0⟩, true, some "Common", []⟩ : Entity)] = []))]
  have hmin : min_by (fun b => distance (⟨250, 0, 0⟩ : Pos) b.position)
      [(⟨"B", ⟨260, 0, 0⟩, true, some "Common", []⟩ : Entity)] =
      some (⟨"B", ⟨260, 0, 0⟩, true, some "Common", []⟩ : Entity) := rfl
  rw [hmin]
  show some (move_or_collect ⟨250, 0, 0⟩
      (⟨"B", ⟨260, 0, 0⟩, true, some "Common", []⟩ : Entity)
      (get_rarity (⟨"B", ⟨260, 0, 0⟩, true, some "Common", []⟩ : Entity))
      ("farming " ++ get_rarity (⟨"B", ⟨260, 0, 0⟩, true, some "Common", []⟩ : Entity) ++
        " in zone")) =
    some (StrategyAction.MoveTo ⟨260, 0, 0⟩ "Common" "farming Common in zone")
  have hrarity : get_rarity (⟨"B", ⟨260, 0, 0⟩, true, some "Common", []⟩ : Entity) =
      "Common" := rfl
  rw [hrarity]
  have hdist : distance (⟨250, 0, 0⟩ : Pos)
      (⟨"B", ⟨260, 0, 0⟩, true, some "Common", []⟩ : Entity).position = 260 - 250 :=
    distance_eq_of_le 0 0 (by norm_num)
  unfold move_or_collect
  rw [hdist]
  rw [if_neg (by norm_num)]
  rfl

/-- What a `some` answer of `furthest_in_order` means: the winner is a
candidate of the returned rarity, farthest among the candidates of that
rarity, and every rarity earlier in the scanned order has no candidate. -/
theorem furthest_in_order_spec (pos : Pos) (cands : List Entity) :
    ∀ (order : List String) (b : Entity) (r : String),
      furthest_in_order pos cands order = some (b, r) →
      b ∈ cands ∧ get_rarity b = r ∧
        (∀ b' ∈ cands, get_rarity b' = r →
          distance pos b'.position ≤ distance pos b.position) ∧
        ∃ pre post, order = pre ++ r :: post ∧
          ∀ r' ∈ pre, ∀ b' ∈ cands, get_rarity b' ≠ r' := by
  intro order
  induction order with
  | nil => intro b r h; exact absurd h (by simp [furthest_in_order])
  | cons r0 rest ih =>
    intro b r h
    unfold furthest_in_order at h
    cases hg : max_by (fun b => distance pos b.position)
        (cands.filter (fun b => decide (get_rarity b = r0))) with
    | some bmax =>
      rw [hg] at h
      simp only [Option.some.injEq, Prod.mk.injEq] at h
      obtain ⟨hb, hr⟩ := h
      subst hb hr
      have hmemf := max_by_mem hg
      have hmem2 := List.mem_filter.mp hmemf
      refine ⟨hmem2.1, of_decide_eq_true hmem2.2, ?_, [], rest, rfl, ?_⟩
      · intro b' hb' hrb'
        exact max_by_ge hg b' (List.mem_filter.mpr ⟨hb', decide_eq_true hrb'⟩)
      · intro r' hr'
        exact absurd hr' (List.not_mem_nil r')
    | none =>
      rw [hg] at h
      obtain ⟨hmem, hrar, hmax, pre, post, horder, hpre⟩ := ih b r h
      refine ⟨hmem, hrar, hmax, r0 :: pre, post, by rw [horder]; rfl, ?_⟩
      intro r' hr' b' hb' hcontra
      rcases List.mem_cons.mp hr' with rfl | hr'
      · have hbf : b' ∈ cands.filter (fun b => decide (get_rarity b = r')) :=
          List.mem_filter.mpr ⟨hb', decide_eq_true hcontra⟩
        rw [(max_by_eq_none_iff _ _).mp hg] at hbf
        exact absurd hbf (List.not_mem_nil b')
      · exact hpre r' hr' b' hb' hcontra

/-- In a duplicate-free order split as `pre ++ r :: post`, any element not
occurring in `pre` has index at least that of `r`. -/
theorem rarity_priority_le_of_order_split {pre post : List String} {r r' : String}
    (horder : RARITY_ORDER = pre ++ r :: post) (hr' : r' ∉ pre) :
    rarity_priority r ≤ rarity_priority r' := by
  have hnodup : RARITY_ORDER.Nodup := by decide
  rw [horder] at hnodup
  have hdisj := (List.nodup_append.mp hnodup).2.2
  have hrpre : r ∉ pre := fun hmem =>
    hdisj hmem (List.mem_cons_self r post)
  unfold rarity_priority
  rw [horder, List.indexOf_append_of_not_mem hrpre,
    List.indexOf_append_of_not_mem hr', List.indexOf_cons_self]
  exact Nat.add_le_add_left (Nat.zero_le _) _

/-- A `none` answer of `furthest_in_order` means no candidate's rarity
occurs in the scanned order. -/
theorem furthest_in_order_none (pos : Pos) (cands : List Entity) :
    ∀ order, furthest_in_order pos cands order = none →
      ∀ b ∈ cands, get_rarity b ∉ order := by
  intro order
  induction order with
  | nil => intro _ b _; exact List.not_mem_nil _
  | cons r0 rest ih =>
    intro h b hb
    unfold furthest_in_order at h
    cases hg : max_by (fun b => distance pos b.position)
        (cands.filter (fun b => decide (get_rarity b = r0))) with
    | some bmax => rw [hg] at h; exact Option.noConfusion h
    | none =>
      rw [hg] at h
      intro hmem
      rcases List.mem_cons.mp hmem with heq | hmem2
      · have hbf : b ∈ cands.filter (fun b => decide (get_rarity b = r0)) :=
          List.mem_filter.mpr ⟨hb, decide_eq_true heq⟩
        rw [(max_by_eq_none_iff _ _).mp hg] at hbf
        exact absurd hbf (List.not_mem_nil b)
      · exact ih h b hb hmem2

/-- C1: whenever some valid candidate is reachable under the tiered margin
(nonnegative safety modifier, speed level at least 1), the Aggressive-Safe
policy targets a reachable candidate of the highest-priority rarity tier
having a reachable member, and the farthest one within that tier. -/
theorem tryhard_selects_highest_reachable_tier (sm : ℝ) (pos : Pos)
    (brs : List Entity) (tsx : ℝ) (bc : Pos) (lvl money : ℝ)
    (hsm : 0 ≤ sm) (hlvl : 1 ≤ lvl)
    (hreach : (valid_filter brs).filter (fun b =>
      decide (can_reach_before_tsunami sm pos b.position bc tsx lvl)) ≠ []) :
    ∃ b r,
      tryhard_find_target sm pos brs tsx bc lvl money =
        some (move_or_collect pos b r ("targeting " ++ r)) ∧
      b ∈ (valid_filter brs).filter (fun b =>
        decide (can_reach_before_tsunami sm pos b.position bc tsx lvl)) ∧
      get_rarity b = r ∧
      (∀ b' ∈ (valid_filter brs).filter (fun b =>
          decide (can_reach_before_tsunami sm pos b.position bc tsx lvl)),
        rarity_priority r ≤ rarity_priority (get_rarity b')) ∧
      (∀ b' ∈ (valid_filter brs).filter (fun b =>
          decide (can_reach_before_tsunami sm pos b.position bc tsx lvl)),
        get_rarity b' = r →
        distance pos b'.position ≤ distance pos b.position) := by
  have hspeed : 0 < player_speed lvl := by
    unfold player_speed PLAYER_SPEED_BASE PLAYER_SPEED_PER_LEVEL
    have h0 : 0 ≤ (lvl - 1) * 5.5 := mul_nonneg (by linarith) (by norm_num)
    linarith
  obtain ⟨b0, hb0⟩ := List.exists_mem_of_ne_nil _ hreach
  have hcr0 : can_reach_before_tsunami sm pos b0.position bc tsx lvl :=
    of_decide_eq_true (List.mem_filter.mp hb0).2
  have hlt : tsx < bc.x := by
    unfold can_reach_before_tsunami at hcr0
    dsimp only at hcr0
    have h1 : 0 ≤ distance pos b0.position / player_speed lvl :=
      div_nonneg (distance_nonneg _ _) (le_of_lt hspeed)
    have h2 : 0 ≤ distance b0.position bc / player_speed lvl :=
      div_nonneg (distance_nonneg _ _) (le_of_lt hspeed)
    have h3 : 0 ≤ tryhard_base_safety_margin lvl * sm :=
      mul_nonneg (le_of_lt (tryhard_base_safety_margin_pos lvl)) hsm
    have h4 : 1 < (bc.x - tsx) / TSUNAMI_SPEED := by linarith
    unfold TSUNAMI_SPEED at h4
    have h5 := (lt_div_iff₀ (by norm_num : (0:ℝ) < 50)).mp h4
    linarith
  rw [tryhard_find_target_eq]
  rw [if_neg (fun hc => hreach hc.2.1)]
  rw [if_neg (fun ha => absurd hlt (not_lt.mpr (le_of_lt ha.2.1)))]
  cases hf : furthest_by_rarity pos ((valid_filter brs).filter (fun b =>
      decide (can_reach_before_tsunami sm pos b.position bc tsx lvl))) with
  | none =>
    exfalso
    unfold furthest_by_rarity at hf
    exact furthest_in_order_none pos _ RARITY_ORDER hf b0 hb0 (get_rarity_mem b0)
  | some br =>
    obtain ⟨b, r⟩ := br
    unfold furthest_by_rarity at hf
    obtain ⟨hmem, hrar, hmax, pre, post, horder, hpre⟩ :=
      furthest_in_order_spec pos _ RARITY_ORDER b r hf
    refine ⟨b, r, ?_, hmem, hrar, ?_, hmax⟩
    · have hf2 : furthest_by_rarity pos ((valid_filter brs).filter (fun b =>
          decide (can_reach_before_tsunami sm pos b.position bc tsx lvl))) =
          some (b, r) := hf
      simp only [hf2]
    · intro b' hb'
      refine rarity_priority_le_of_order_split horder ?_
      intro hinpre
      exact hpre (get_rarity b') hinpre b' hb' rfl

/-- Witness for C1 at a concrete snapshot with one reachable candidate. -/
theorem tryhard_selects_highest_reachable_tier_witness :
    ∃ b r,
      tryhard_find_target 0 ⟨0, 0, 0⟩
          [(⟨"B", ⟨16, 0, 0⟩, true, some "Common", []⟩ : Entity)] (-1000)
          ⟨100, 0, 0⟩ 1 0 =
        some (move_or_collect ⟨0, 0, 0⟩ b r ("targeting " ++ r)) ∧
      b ∈ (valid_filter
          [(⟨"B", ⟨16, 0, 0⟩, true, some "Common", []⟩ : Entity)]).filter
        (fun b => decide (can_reach_before_tsunami 0 ⟨0, 0, 0⟩ b.position
          ⟨100, 0, 0⟩ (-1000) 1)) ∧
      get_rarity b = r ∧
      (∀ b' ∈ (valid_filter
          [(⟨"B", ⟨16, 0, 0⟩, true, some "Common", []⟩ : Entity)]).filter
        (fun b => decide (can_reach_before_tsunami 0 ⟨0, 0, 0⟩ b.position
          ⟨100, 0, 0⟩ (-1000) 1)),
        rarity_priority r ≤ rarity_priority (get_rarity b')) ∧
      (∀ b' ∈ (valid_filter
          [(⟨"B", ⟨16, 0, 0⟩, true, some "Common", []⟩ : Entity)]).filter
        (fun b => decide (can_reach_before_tsunami 0 ⟨0, 0, 0⟩ b.position
          ⟨100, 0, 0⟩ (-1000) 1)),
        get_rarity b' = r →
        distance ⟨0, 0, 0⟩ b'.position ≤ distance ⟨0, 0, 0⟩ b.position) := by
  apply tryhard_selects_highest_reachable_tier 0 ⟨0, 0, 0⟩ _ (-1000) ⟨100, 0, 0⟩
    1 0 (by norm_num) (by norm_num)
  have hval : valid_filter [(⟨"B", ⟨16, 0, 0⟩, true, some "Common", []⟩ : Entity)] =
      [(⟨"B", ⟨16, 0, 0⟩, true, some "Common", []⟩ : Entity)] := by
    unfold valid_filter
    norm_num [is_in_base_zone, BASE_ZONE_X]
  have hcr : can_reach_before_tsunami 0 ⟨0, 0, 0⟩ (⟨16, 0, 0⟩ : Pos)
      ⟨100, 0, 0⟩ (-1000) 1 := by
    unfold can_reach_before_tsunami player_speed tryhard_base_safety_margin
    rw [distance_eq_of_le 0 0 (by norm_num : (0:ℝ) ≤ 16),
      distance_eq_of_le 0 0 (by norm_num : (16:ℝ) ≤ 100)]
    norm_num [PLAYER_SPEED_BASE, PLAYER_SPEED_PER_LEVEL, TSUNAMI_SPEED]
  rw [hval]
  simp [hcr]

theorem player_speed_pos {lvl : ℝ} (hlvl : 1 ≤ lvl) : 0 < player_speed lvl := by
  unfold player_speed PLAYER_SPEED_BASE PLAYER_SPEED_PER_LEVEL
  have h0 : 0 ≤ (lvl - 1) * 5.5 := mul_nonneg (by linarith) (by norm_num)
  linarith

-- Claim C3: the aggressive post-wave rule.

/-- Counterexample to C3: money above the threshold, hazard past the base
center, player at the base, a valid candidate present — yet the policy
returns `Wait`, not an action targeting the nearest valid resource: the
hazard-wait rule preempts, since nothing is reachable once the hazard has
passed the deposit point. -/
theorem tryhard_aggressive_claim_counterexample :
    tryhard_find_target 1 ⟨375, 0.25, 0⟩
        [(⟨"C", ⟨300, 0.25, 0⟩, true, some "Common", []⟩ : Entity)] 400
        ⟨375, 0.25, 0⟩ 1 3000 =
      some (StrategyAction.Wait "waiting for wave reset") ∧
    (2500 : ℝ) ≤ 3000 ∧ (400 : ℝ) > (375 : ℝ) ∧
    distance ⟨375, 0.25, 0⟩ ⟨375, 0.25, 0⟩ < 20 ∧
    StrategyAction.Wait "waiting for wave reset" ≠
      move_or_collect ⟨375, 0.25, 0⟩
        (⟨"C", ⟨300, 0.25, 0⟩, true, some "Common", []⟩ : Entity)
        (get_rarity (⟨"C", ⟨300, 0.25, 0⟩, true, some "Common", []⟩ : Entity))
        "aggressive mode - nearest valuable" := by
  have hval : valid_filter
      [(⟨"C", ⟨300, 0.25, 0⟩, true, some "Common", []⟩ : Entity)] =
      [(⟨"C", ⟨300, 0.25, 0⟩, true, some "Common", []⟩ : Entity)] := by
    unfold valid_filter
    norm_num [is_in_base_zone, BASE_ZONE_X]
  have hnotcr : ¬ can_reach_before_tsunami 1 ⟨375, 0.25, 0⟩
      (⟨300, 0.25, 0⟩ : Pos) ⟨375, 0.25, 0⟩ 400 1 := by
    unfold can_reach_before_tsunami player_speed tryhard_base_safety_margin
    rw [distance_comm ⟨375, 0.25, 0⟩ ⟨300, 0.25, 0⟩,
      distance_eq_of_le 0.25 0 (by norm_num : (300:ℝ) ≤ 375)]
    norm_num [PLAYER_SPEED_BASE, PLAYER_SPEED_PER_LEVEL, TSUNAMI_SPEED]
  refine ⟨?_, by norm_num, by norm_num, by rw [distance_self]; norm_num,
    (move_or_collect_ne_wait _ _ _ _ _).symm⟩
  rw [tryhard_find_target_eq]
  rw [if_pos ⟨by norm_num, by rw [hval]; simp [hnotcr],
    by rw [distance_self]; norm_num⟩]

/-- C3 amended: when money is at least the aggressive threshold, the hazard
x is past the base center and the player is near base (with nonnegative
margin, speed level at least 1 and a base center at or right of the
inactive sentinel), the hazard-wait rule preempts the aggressive rule and
the Aggressive-Safe policy returns `Wait`: once the hazard has passed the
deposit point no candidate is reachable.  (The aggressive branch itself is
unreachable under these conditions; had it run, it would pick the nearest
candidate within the highest-priority rarity tier present, not the nearest
of any rarity.) -/
theorem tryhard_aggressive_preempted_by_wait (sm : ℝ) (pos : Pos)
    (brs : List Entity) (tsx : ℝ) (bc : Pos) (lvl money : ℝ)
    (hsm : 0 ≤ sm) (hlvl : 1 ≤ lvl) (hbc : -400 ≤ bc.x)
    (hmoney : money ≥ 2500) (hpassed : tsx > bc.x)
    (hnear : distance pos bc < 20) :
    tryhard_find_target sm pos brs tsx bc lvl money =
      some (StrategyAction.Wait "waiting for wave reset") := by
  have hspeed := player_speed_pos hlvl
  have hempty : (valid_filter brs).filter (fun b =>
      decide (can_reach_before_tsunami sm pos b.position bc tsx lvl)) = [] := by
    rw [List.filter_eq_nil_iff]
    intro b _ hdec
    have hcr := of_decide_eq_true hdec
    unfold can_reach_before_tsunami at hcr
    dsimp only at hcr
    have h1 : 0 ≤ distance pos b.position / player_speed lvl :=
      div_nonneg (distance_nonneg _ _) (le_of_lt hspeed)
    have h2 : 0 ≤ distance b.position bc / player_speed lvl :=
      div_nonneg (distance_nonneg _ _) (le_of_lt hspeed)
    have h3 : 0 ≤ tryhard_base_safety_margin lvl * sm :=
      mul_nonneg (le_of_lt (tryhard_base_safety_margin_pos lvl)) hsm
    have h4 : (bc.x - tsx) / TSUNAMI_SPEED < 0 :=
      div_neg_of_neg_of_pos (by linarith) (by norm_num [TSUNAMI_SPEED])
    linarith
  rw [tryhard_find_target_eq]
  rw [if_pos ⟨by linarith, hempty, hnear⟩]

/-- Witness for the amended C3 at the counterexample's snapshot. -/
theorem tryhard_aggressive_preempted_by_wait_witness :
    tryhard_find_target 1 ⟨375, 0.25, 0⟩
        [(⟨"C", ⟨300, 0.25, 0⟩, true, some "Common", []⟩ : Entity)] 400
        ⟨375, 0.25, 0⟩ 1 3000 =
      some (StrategyAction.Wait "waiting for wave reset") :=
  tryhard_aggressive_preempted_by_wait 1 ⟨375, 0.25, 0⟩
    [(⟨"C", ⟨300, 0.25, 0⟩, true, some "Common", []⟩ : Entity)] 400
    ⟨375, 0.25, 0⟩ 1 3000 (by norm_num) (by norm_num) (by norm_num)
    (by norm_num) (by norm_num) (by rw [distance_self]; norm_num)

/-- `gambler_find_target` with its local bindings inlined. -/
theorem gambler_find_target_eq (sm : ℝ) (pos : Pos) (brs : List Entity)
    (tsx : ℝ) (bc : Pos) (lvl money : ℝ) :
    gambler_find_target sm pos brs tsx bc lvl money =
      if valid_filter brs = [] then none
      else
        match gambler_best (valid_filter brs) with
        | none => none
        | some (_, best_rarity) =>
          match min_by (fun b => distance pos b.position)
              ((valid_filter brs).filter
                (fun b => decide (get_rarity b = best_rarity))) with
          | none => none
          | some target =>
            if ¬ is_safe_enough sm target.position bc tsx lvl then
              match min_by (fun b => distance pos b.position)
                  (valid_filter brs) with
              | none => none
              | some fallback =>
                if is_safe_enough sm fallback.position bc tsx lvl then
                  some (move_or_collect pos fallback (get_rarity fallback)
                    "gambler fallback - nearest")
                else
                  some (move_or_collect pos target (get_rarity target)
                    "YOLO gambler - ignoring danger")
            else
              some (move_or_collect pos target best_rarity
                ("chasing " ++ best_rarity)) := rfl

/-- Any property holding of every scanned candidate (paired with its rarity)
and of the accumulator's tracked best holds of the scan's final best. -/
theorem gambler_fold_prop (P : Entity × String → Prop) :
    ∀ (l : List Entity) (acc : Option (Entity × String) × ℕ),
      (∀ p, acc.1 = some p → P p) → (∀ b ∈ l, P (b, get_rarity b)) →
      ∀ p, (l.foldl gambler_scan_step acc).1 = some p → P p := by
  intro l
  induction l with
  | nil => intro acc hacc _ p hp; exact hacc p hp
  | cons b bs ih =>
    intro acc hacc hl p hp
    rw [List.foldl_cons] at hp
    refine ih (gambler_scan_step acc b) ?_
      (fun b' hb' => hl b' (List.mem_cons_of_mem _ hb')) p hp
    intro q hq
    unfold gambler_scan_step at hq
    dsimp only at hq
    by_cases hc : (if get_rarity b ∈ RARITY_ORDER
        then RARITY_ORDER.indexOf (get_rarity b)
        else RARITY_ORDER.length) < acc.2
    · rw [if_pos hc] at hq
      dsimp only at hq
      simp only [Option.some.injEq] at hq
      rw [← hq]
      exact hl b (List.mem_cons_self b bs)
    · rw [if_neg hc] at hq
      exact hacc q hq

theorem gambler_best_mem {valid : List Entity} {b0 : Entity} {r0 : String}
    (h : gambler_best valid = some (b0, r0)) :
    b0 ∈ valid ∧ get_rarity b0 = r0 :=
  gambler_fold_prop (fun p => p.1 ∈ valid ∧ get_rarity p.1 = p.2) valid
    (none, RARITY_ORDER.length) (fun p hp => Option.noConfusion hp)
    (fun b hb => ⟨hb, rfl⟩) (b0, r0) h

theorem gambler_best_ne_nil {valid : List Entity} {p : Entity × String}
    (h : gambler_best valid = some p) : valid ≠ [] := by
  intro he
  subst he
  exact Option.noConfusion h

-- Claim C4: tier preference of the Risk-Seeking policy.

/-- C4 amended: when the *nearest-to-the-player* candidate of the globally
highest present rarity tier passes the loose safety check, the Risk-Seeking
policy selects it, so the chosen target belongs to that tier.  (If only a
farther member of the tier is safe, the policy can instead fall back to the
globally nearest candidate of any rarity — see the counterexample.) -/
theorem gambler_prefers_best_tier_when_nearest_safe (sm : ℝ) (pos : Pos)
    (brs : List Entity) (tsx : ℝ) (bc : Pos) (lvl money : ℝ)
    (b0 t : Entity) (r0 : String)
    (hbest : gambler_best (valid_filter brs) = some (b0, r0))
    (hmin : min_by (fun b => distance pos b.position)
      ((valid_filter brs).filter (fun b => decide (get_rarity b = r0))) =
      some t)
    (hsafe : is_safe_enough sm t.position bc tsx lvl) :
    gambler_find_target sm pos brs tsx bc lvl money =
      some (move_or_collect pos t r0 ("chasing " ++ r0)) ∧
    get_rarity t = r0 ∧ t ∈ valid_filter brs := by
  have hne : valid_filter brs ≠ [] := gambler_best_ne_nil hbest
  have htf := List.mem_filter.mp (min_by_mem hmin)
  refine ⟨?_, of_decide_eq_true htf.2, htf.1⟩
  rw [gambler_find_target_eq, if_neg hne]
  simp only [hbest, hmin]
  rw [if_neg (not_not_intro hsafe)]

/-- Counterexample to C4: the best tier (Legendary) has a safe member at
x = 80, but the tier's nearest-to-player member (x = -60) fails the check,
so the policy falls back to the globally nearest candidate — a Common one —
although a safe Legendary exists. -/
theorem gambler_highest_tier_claim_counterexample :
    gambler_find_target 1 ⟨0, 0, 0⟩
        [(⟨"L1", ⟨-60, 0, 0⟩, true, some "Legendary", []⟩ : Entity),
         (⟨"L2", ⟨80, 0, 0⟩, true, some "Legendary", []⟩ : Entity),
         (⟨"Ce", ⟨5, 0, 0⟩, true, some "Common", []⟩ : Entity)] (-400)
        ⟨100, 0, 0⟩ 1 0 =
      some (StrategyAction.MoveTo ⟨5, 0, 0⟩ "Common"
        "gambler fallback - nearest") ∧
    gambler_best (valid_filter
      [(⟨"L1", ⟨-60, 0, 0⟩, true, some "Legendary", []⟩ : Entity),
       (⟨"L2", ⟨80, 0, 0⟩, true, some "Legendary", []⟩ : Entity),
       (⟨"Ce", ⟨5, 0, 0⟩, true, some "Common", []⟩ : Entity)]) =
      some ((⟨"L1", ⟨-60, 0, 0⟩, true, some "Legendary", []⟩ : Entity),
        "Legendary") ∧
    is_safe_enough 1 (⟨80, 0, 0⟩ : Pos) ⟨100, 0, 0⟩ (-400) 1 ∧
    get_rarity (⟨"L2", ⟨80, 0, 0⟩, true, some "Legendary", []⟩ : Entity) =
      "Legendary" ∧
    (⟨"L2", ⟨80, 0, 0⟩, true, some "Legendary", []⟩ : Entity) ∈ valid_filter
      [(⟨"L1", ⟨-60, 0, 0⟩, true, some "Legendary", []⟩ : Entity),
       (⟨"L2", ⟨80, 0, 0⟩, true, some "Legendary", []⟩ : Entity),
       (⟨"Ce", ⟨5, 0, 0⟩, true, some "Common", []⟩ : Entity)] ∧
    "Common" ≠ "Legendary" := by
  have hvalid : valid_filter
      [(⟨"L1", ⟨-60, 0, 0⟩, true, some "Legendary", []⟩ : Entity),
       (⟨"L2", ⟨80, 0, 0⟩, true, some "Legendary", []⟩ : Entity),
       (⟨"Ce", ⟨5, 0, 0⟩, true, some "Common", []⟩ : Entity)] =
      [(⟨"L1", ⟨-60, 0, 0⟩, true, some "Legendary", []⟩ : Entity),
       (⟨"L2", ⟨80, 0, 0⟩, true, some "Legendary", []⟩ : Entity),
       (⟨"Ce", ⟨5, 0, 0⟩, true, some "Common", []⟩ : Entity)] := by
    unfold valid_filter
    norm_num [is_in_base_zone, BASE_ZONE_X]
  have hd1 : distance ⟨0, 0, 0⟩ (⟨-60, 0, 0⟩ : Pos) = 60 := by
    rw [distance_comm, distance_eq_of_le 0 0 (by norm_num : (-60:ℝ) ≤ 0)]
    norm_num
  have hd2 : distance ⟨0, 0, 0⟩ (⟨80, 0, 0⟩ : Pos) = 80 := by
    rw [distance_eq_of_le 0 0 (by norm_num : (0:ℝ) ≤ 80)]
    norm_num
  have hd3 : distance ⟨0, 0, 0⟩ (⟨5, 0, 0⟩ : Pos) = 5 := by
    rw [distance_eq_of_le 0 0 (by norm_num : (0:ℝ) ≤ 5)]
    norm_num
  have hbest : gambler_best
      [(⟨"L1", ⟨-60, 0, 0⟩, true, some "Legendary", []⟩ : Entity),
       (⟨"L2", ⟨80, 0, 0⟩, true, some "Legendary", []⟩ : Entity),
       (⟨"Ce", ⟨5, 0, 0⟩, true, some "Common", []⟩ : Entity)] =
      some ((⟨"L1", ⟨-60, 0, 0⟩, true, some "Legendary", []⟩ : Entity),
        "Legendary") := rfl
  have hsr : List.filter (fun b => decide (get_rarity b = "Legendary"))
      [(⟨"L1", ⟨-60, 0, 0⟩, true, some "Legendary", []⟩ : Entity),
       (⟨"L2", ⟨80, 0, 0⟩, true, some "Legendary", []⟩ : Entity),
       (⟨"Ce", ⟨5, 0, 0⟩, true, some "Common", []⟩ : Entity)] =
      [(⟨"L1", ⟨-60, 0, 0⟩, true, some "Legendary", []⟩ : Entity),
       (⟨"L2", ⟨80, 0, 0⟩, true, some "Legendary", []⟩ : Entity)] := rfl
  have hminL : min_by (fun b => distance (⟨0, 0, 0⟩ : Pos) b.position)
      [(⟨"L1", ⟨-60, 0, 0⟩, true, some "Legendary", []⟩ : Entity),
       (⟨"L2", ⟨80, 0, 0⟩, true, some "Legendary", []⟩ : Entity)] =
      some (⟨"L1", ⟨-60, 0, 0⟩, true, some "Legendary", []⟩ : Entity) := by
    unfold min_by
    norm_num [hd1, hd2]
  have hfall : min_by (fun b => distance (⟨0, 0, 0⟩ : Pos) b.position)
      [(⟨"L1", ⟨-60, 0, 0⟩, true, some "Legendary", []⟩ : Entity),
       (⟨"L2", ⟨80, 0, 0⟩, true, some "Legendary", []⟩ : Entity),
       (⟨"Ce", ⟨5, 0, 0⟩, true, some "Common", []⟩ : Entity)] =
      some (⟨"Ce", ⟨5, 0, 0⟩, true, some "Common", []⟩ : Entity) := by
    unfold min_by
    norm_num [hd1, hd2, hd3]
  have hunsafeL1 : ¬ is_safe_enough 1 (⟨-60, 0, 0⟩ : Pos) ⟨100, 0, 0⟩ (-400) 1 := by
    unfold is_safe_enough gambler_ticks_to_return gambler_ticks_available
      player_speed
    rw [distance_eq_of_le 0 0 (by norm_num : (-60:ℝ) ≤ 100)]
    norm_num [PLAYER_SPEED_BASE, PLAYER_SPEED_PER_LEVEL, TSUNAMI_SPEED]
  have hsafeCe : is_safe_enough 1 (⟨5, 0, 0⟩ : Pos) ⟨100, 0, 0⟩ (-400) 1 := by
    unfold is_safe_enough gambler_ticks_to_return gambler_ticks_available
      player_speed
    rw [distance_eq_of_le 0 0 (by norm_num : (5:ℝ) ≤ 100)]
    norm_num [PLAYER_SPEED_BASE, PLAYER_SPEED_PER_LEVEL, TSUNAMI_SPEED]
  have hsafeL2 : is_safe_enough 1 (⟨80, 0, 0⟩ : Pos) ⟨100, 0, 0⟩ (-400) 1 := by
    unfold is_safe_enough gambler_ticks_to_return gambler_ticks_available
      player_speed
    rw [distance_eq_of_le 0 0 (by norm_num : (80:ℝ) ≤ 100)]
    norm_num [PLAYER_SPEED_BASE, PLAYER_SPEED_PER_LEVEL, TSUNAMI_SPEED]
  refine ⟨?_, by rw [hvalid]; exact hbest, hsafeL2, rfl, by rw [hvalid]; simp,
    by decide⟩
  rw [gambler_find_target_eq, hvalid]
  rw [if_neg (by simp)]
  simp only [hbest, hsr, hminL]
  rw [if_pos hunsafeL1]
  simp only [hfall]
  rw [if_pos hsafeCe]
  unfold move_or_collect
  rw [hd3]
  rw [if_neg (by norm_num)]
  rfl

/-- Witness for the amended C4: a single safe Legendary candidate is chased. -/
theorem gambler_prefers_best_tier_witness :
    gambler_find_target 1 ⟨0, 0, 0⟩
        [(⟨"L", ⟨80, 0, 0⟩, true, some "Legendary", []⟩ : Entity)] (-400)
        ⟨100, 0, 0⟩ 1 0 =
      some (move_or_collect ⟨0, 0, 0⟩
        (⟨"L", ⟨80, 0, 0⟩, true, some "Legendary", []⟩ : Entity) "Legendary"
        ("chasing " ++ "Legendary")) ∧
    get_rarity (⟨"L", ⟨80, 0, 0⟩, true, some "Legendary", []⟩ : Entity) =
      "Legendary" ∧
    (⟨"L", ⟨80, 0, 0⟩, true, some "Legendary", []⟩ : Entity) ∈ valid_filter
      [(⟨"L", ⟨80, 0, 0⟩, true, some "Legendary", []⟩ : Entity)] := by
  have hvalid : valid_filter
      [(⟨"L", ⟨80, 0, 0⟩, true, some "Legendary", []⟩ : Entity)] =
      [(⟨"L", ⟨80, 0, 0⟩, true, some "Legendary", []⟩ : Entity)] := by
    unfold valid_filter
    norm_num [is_in_base_zone, BASE_ZONE_X]
  apply gambler_prefers_best_tier_when_nearest_safe 1 ⟨0, 0, 0⟩ _ (-400)
    ⟨100, 0, 0⟩ 1 0 (⟨"L", ⟨80, 0, 0⟩, true, some "Legendary", []⟩ : Entity)
    (⟨"L", ⟨80, 0, 0⟩, true, some "Legendary", []⟩ : Entity) "Legendary"
  · rw [hvalid]
    rfl
  · rw [hvalid]
    rfl
  · unfold is_safe_enough gambler_ticks_to_return gambler_ticks_available
      player_speed
    show distance (⟨80, 0, 0⟩ : Pos) ⟨100, 0, 0⟩ /
        (PLAYER_SPEED_BASE + (1 - 1) * PLAYER_SPEED_PER_LEVEL) <
      ((⟨100, 0, 0⟩ : Pos).x - (-400)) / TSUNAMI_SPEED - 1
    rw [distance_eq_of_le 0 0 (by norm_num : (80:ℝ) ≤ 100)]
    norm_num [PLAYER_SPEED_BASE, PLAYER_SPEED_PER_LEVEL, TSUNAMI_SPEED]

-- Claim C6: destroy-before-deposit at a full base.

/-- C6: in a cycle where the player carries at capacity, stands within 10
units of the base center, and the base's placed count is at its cap (with
at least one placed resource, as the claim presupposes), the state machine
sends exactly `Destroy` on the first lowest-value placed resource and then
`Deposit`, and nothing else. -/
theorem run_cycle_destroy_before_deposit
    (strat : Pos → List Entity → ℝ → Pos → ℝ → ℝ → Option StrategyAction)
    (upthr : ℝ) (sc : ℕ) (pos : Pos) (carrying capacity : ℕ)
    (money lvl cost : ℝ) (bc : Pos) (entities : List Entity)
    (placed : List PlacedBrainrot) (bmax : ℕ)
    (hcar : carrying = capacity) (hnear : distance pos bc ≤ 10)
    (hcap : placed.length = bmax) (hne : placed ≠ []) :
    ∃ lowest, min_by (fun p => p.value) placed = some lowest ∧
      (∀ p ∈ placed, lowest.value ≤ p.value) ∧
      (run_cycle strat upthr ⟨none, sc⟩ pos carrying capacity money lvl cost
        bc entities placed bmax).1 =
        [GameAction.Destroy lowest.index, GameAction.Deposit] := by
  cases hm : min_by (fun p => p.value) placed with
  | none => exact absurd ((min_by_eq_none_iff _ _).mp hm) hne
  | some lowest =>
    refine ⟨lowest, rfl, min_by_le hm, ?_⟩
    unfold run_cycle
    dsimp only
    rw [if_neg not_false]
    rw [if_pos (ge_of_eq hcar)]
    rw [if_pos (lt_of_le_of_lt hnear (by norm_num : (10:ℝ) < 20))]
    rw [if_pos (ge_of_eq hcap)]
    unfold destroy_lowest_value
    rw [hm]
    rfl

/-- Witness for C6: two placed resources, base cap reached, player at the
base center with a full inventory. -/
theorem run_cycle_destroy_before_deposit_witness :
    ∃ lowest, min_by (fun p => p.value)
        [(⟨5, 2⟩ : PlacedBrainrot), ⟨3, 7⟩] = some lowest ∧
      (∀ p ∈ [(⟨5, 2⟩ : PlacedBrainrot), ⟨3, 7⟩], lowest.value ≤ p.value) ∧
      (run_cycle (fun _ _ _ _ _ _ => none) 1 ⟨none, 0⟩ ⟨375, 0, 0⟩ 1 1 0 1 0
        ⟨375, 0, 0⟩ [] [(⟨5, 2⟩ : PlacedBrainrot), ⟨3, 7⟩] 2).1 =
        [GameAction.Destroy lowest.index, GameAction.Deposit] :=
  run_cycle_destroy_before_deposit (fun _ _ _ _ _ _ => none) 1 0 ⟨375, 0, 0⟩
    1 1 0 1 0 ⟨375, 0, 0⟩ [] [(⟨5, 2⟩ : PlacedBrainrot), ⟨3, 7⟩] 2 rfl
    (by rw [distance_self]; norm_num) rfl (by simp)

-- Lemmas for claim C10.

theorem gambler_fold_isSome :
    ∀ (l : List Entity) (acc : Option (Entity × String) × ℕ),
      acc.1.isSome → ((l.foldl gambler_scan_step acc).1).isSome := by
  intro l
  induction l with
  | nil => intro acc h; exact h
  | cons b bs ih =>
    intro acc h
    rw [List.foldl_cons]
    apply ih
    unfold gambler_scan_step
    dsimp only
    by_cases hc : (if get_rarity b ∈ RARITY_ORDER
        then RARITY_ORDER.indexOf (get_rarity b)
        else RARITY_ORDER.length) < acc.2
    · rw [if_pos hc]
      rfl
    · rw [if_neg hc]; exact h

theorem gambler_best_isSome {valid : List Entity} (h : valid ≠ []) :
    (gambler_best valid).isSome := by
  cases valid with
  | nil => exact absurd rfl h
  | cons b bs =>
    unfold gambler_best
    rw [List.foldl_cons]
    apply gambler_fold_isSome
    unfold gambler_scan_step
    dsimp only
    rw [if_pos (get_rarity_mem b)]
    rw [if_pos (List.indexOf_lt_length.mpr (get_rarity_mem b))]
    rfl

-- Claim C10: a policy answers `none` only on an empty filtered pool, and
-- the state machine turns `none` into MoveTo(baseCenter).

/-- C10: each policy returns an action whenever at least one candidate
survives its own filters (so `None` arises only from an empty pool), and
when a policy does return `None` the state machine sends
`MoveTo(baseCenter)` for that cycle. -/
theorem find_target_none_only_on_empty_pool :
    (∀ (sm : ℝ) (pos : Pos) (brs : List Entity) (tsx : ℝ) (bc : Pos)
        (lvl money : ℝ), valid_filter brs ≠ [] →
      ∃ a, tryhard_find_target sm pos brs tsx bc lvl money = some a) ∧
    (∀ (sm : ℝ) (pos : Pos) (brs : List Entity) (tsx : ℝ) (bc : Pos)
        (lvl money : ℝ), valid_filter brs ≠ [] →
      ∃ a, gambler_find_target sm pos brs tsx bc lvl money = some a) ∧
    (∀ (sm vlim : ℝ) (mrp : ℕ) (pos : Pos) (brs : List Entity) (tsx : ℝ)
        (bc : Pos) (lvl money : ℝ),
      farmer_rarity_filter mrp (farmer_valid_filter vlim brs) ≠ [] →
      ∃ a, farmer_find_target sm vlim mrp pos brs tsx bc lvl money = some a) ∧
    (∀ (strat : Pos → List Entity → ℝ → Pos → ℝ → ℝ → Option StrategyAction)
        (upthr : ℝ) (sc : ℕ) (pos : Pos) (carrying capacity : ℕ)
        (money lvl cost : ℝ) (bc : Pos) (entities : List Entity)
        (placed : List PlacedBrainrot) (bmax : ℕ),
      carrying < capacity →
      ¬ (carrying = 0 ∧ cost > 0 ∧ money ≥ cost * upthr ∧ lvl < 10) →
      strat pos (entities.filter (fun e => e.isBrainrot))
        (resolve_tsunami_x entities) bc lvl money = none →
      (run_cycle strat upthr ⟨none, sc⟩ pos carrying capacity money lvl cost
        bc entities placed bmax).1 = [GameAction.MoveTo bc]) := by
  refine ⟨?_, ?_, ?_, ?_⟩
  · -- Aggressive-Safe
    intro sm pos brs tsx bc lvl money hvalid
    rw [tryhard_find_target_eq]
    by_cases hw : tsx > -400 ∧
        (valid_filter brs).filter (fun b =>
          decide (can_reach_before_tsunami sm pos b.position bc tsx lvl)) = [] ∧
        distance pos bc < 20
    · rw [if_pos hw]; exact ⟨_, rfl⟩
    · rw [if_neg hw]
      by_cases ha : money ≥ 2500 ∧ tsx > bc.x ∧ distance pos bc < 20
      · rw [if_pos ha]
        cases hnv : find_nearest_valuable pos (valid_filter brs) with
        | some br =>
          obtain ⟨b, r⟩ := br
          simp only [hnv]
          exact ⟨_, rfl⟩
        | none =>
          simp only [hnv]
          cases hf : furthest_by_rarity pos ((valid_filter brs).filter
              (fun b => decide (can_reach_before_tsunami sm pos b.position bc
                tsx lvl))) with
          | some br =>
            obtain ⟨b, r⟩ := br
            simp only [hf]
            exact ⟨_, rfl⟩
          | none =>
            simp only [hf]
            cases hmn : min_by (fun b => distance pos b.position)
                (valid_filter brs) with
            | some nearest => simp only [hmn]; exact ⟨_, rfl⟩
            | none => exact absurd ((min_by_eq_none_iff _ _).mp hmn) hvalid
      · rw [if_neg ha]
        cases hf : furthest_by_rarity pos ((valid_filter brs).filter
            (fun b => decide (can_reach_before_tsunami sm pos b.position bc
              tsx lvl))) with
        | some br =>
          obtain ⟨b, r⟩ := br
          simp only [hf]
          exact ⟨_, rfl⟩
        | none =>
          simp only [hf]
          cases hmn : min_by (fun b => distance pos b.position)
              (valid_filter brs) with
          | some nearest => simp only [hmn]; exact ⟨_, rfl⟩
          | none => exact absurd ((min_by_eq_none_iff _ _).mp hmn) hvalid
  · -- Risk-Seeking
    intro sm pos brs tsx bc lvl money hvalid
    rw [gambler_find_target_eq, if_neg hvalid]
    cases hb : gambler_best (valid_filter brs) with
    | none =>
      have := gambler_best_isSome hvalid
      rw [hb] at this
      exact absurd this (by simp)
    | some br =>
      obtain ⟨b0, r0⟩ := br
      simp only [hb]
      have hmem := gambler_best_mem hb
      have hb0f : b0 ∈ (valid_filter brs).filter
          (fun b => decide (get_rarity b = r0)) :=
        List.mem_filter.mpr ⟨hmem.1, decide_eq_true hmem.2⟩
      cases hmt : min_by (fun b => distance pos b.position)
          ((valid_filter brs).filter (fun b => decide (get_rarity b = r0))) with
      | none =>
        rw [(min_by_eq_none_iff _ _).mp hmt] at hb0f
        exact absurd hb0f (List.not_mem_nil b0)
      | some t =>
        simp only [hmt]
        by_cases hs : is_safe_enough sm t.position bc tsx lvl
        · rw [if_neg (not_not_intro hs)]
          exact ⟨_, rfl⟩
        · rw [if_pos hs]
          cases hmf : min_by (fun b => distance pos b.position)
              (valid_filter brs) with
          | none => exact absurd ((min_by_eq_none_iff _ _).mp hmf) hvalid
          | some fb =>
            simp only [hmf]
            by_cases hsf : is_safe_enough sm fb.position bc tsx lvl
            · rw [if_pos hsf]; exact ⟨_, rfl⟩
            · rw [if_neg hsf]; exact ⟨_, rfl⟩
  · -- Zone-Restricted
    intro sm vlim mrp pos brs tsx bc lvl money hvalid
    rw [farmer_find_target_eq, if_neg hvalid]
    by_cases hs : (farmer_rarity_filter mrp (farmer_valid_filter vlim brs)).filter
        (fun b => decide (farmer_is_safe sm b.position bc tsx lvl)) = []
    · rw [if_pos hs]
      cases hmn : min_by (fun b => distance pos b.position)
          (farmer_rarity_filter mrp (farmer_valid_filter vlim brs)) with
      | none => exact absurd ((min_by_eq_none_iff _ _).mp hmn) hvalid
      | some target => simp only [hmn]; exact ⟨_, rfl⟩
    · rw [if_neg hs]
      cases hmn : min_by (fun b => distance pos b.position)
          ((farmer_rarity_filter mrp (farmer_valid_filter vlim brs)).filter
            (fun b => decide (farmer_is_safe sm b.position bc tsx lvl))) with
      | none => exact absurd ((min_by_eq_none_iff _ _).mp hmn) hs
      | some target => simp only [hmn]; exact ⟨_, rfl⟩
  · -- state machine: none ↦ MoveTo(baseCenter)
    intro strat upthr sc pos carrying capacity money lvl cost bc entities
      placed bmax hcar hup hnone
    unfold run_cycle
    dsimp only
    rw [if_neg not_false]
    rw [if_neg (not_le.mpr hcar)]
    rw [if_neg hup]
    simp only [hnone]
